import Mathlib

/-!
Shallow embedding of the tinykaboom-rs renderer (src/main.rs) over the reals.
Rust f32 arithmetic is modelled by exact real arithmetic; machine rounding is
not modelled.  Every definition mirrors the corresponding Rust item.
-/

namespace TK

open scoped Classical

noncomputable section

/-- Vec3f from the source: a triple of floating components, modelled over ℝ. -/
@[ext] structure Vec3 where
  x : ℝ
  y : ℝ
  z : ℝ

instance : Add Vec3 := ⟨fun a b => ⟨a.x + b.x, a.y + b.y, a.z + b.z⟩⟩

instance : Sub Vec3 := ⟨fun a b => ⟨a.x - b.x, a.y - b.y, a.z - b.z⟩⟩

instance : HMul Vec3 ℝ Vec3 := ⟨fun v s => ⟨v.x * s, v.y * s, v.z * s⟩⟩

instance : Zero Vec3 := ⟨⟨0, 0, 0⟩⟩

@[simp] theorem vadd_x (a b : Vec3) : (a + b).x = a.x + b.x := rfl

@[simp] theorem vadd_y (a b : Vec3) : (a + b).y = a.y + b.y := rfl

@[simp] theorem vadd_z (a b : Vec3) : (a + b).z = a.z + b.z := rfl

@[simp] theorem vsub_x (a b : Vec3) : (a - b).x = a.x - b.x := rfl

@[simp] theorem vsub_y (a b : Vec3) : (a - b).y = a.y - b.y := rfl

@[simp] theorem vsub_z (a b : Vec3) : (a - b).z = a.z - b.z := rfl

@[simp] theorem vsmul_x (v : Vec3) (s : ℝ) : (v * s).x = v.x * s := rfl

@[simp] theorem vsmul_y (v : Vec3) (s : ℝ) : (v * s).y = v.y * s := rfl

@[simp] theorem vsmul_z (v : Vec3) (s : ℝ) : (v * s).z = v.z * s := rfl

@[simp] theorem vzero_x : (0 : Vec3).x = 0 := rfl

@[simp] theorem vzero_y : (0 : Vec3).y = 0 := rfl

@[simp] theorem vzero_z : (0 : Vec3).z = 0 := rfl

/-- cgmath dot product. -/
def dot (a b : Vec3) : ℝ := a.x * b.x + a.y * b.y + a.z * b.z

/-- cgmath magnitude: the Euclidean length. -/
def magnitude (v : Vec3) : ℝ := Real.sqrt (dot v v)

/-- cgmath InnerSpace normalize: the vector scaled by the inverse magnitude. -/
def normalize (v : Vec3) : Vec3 := v * (1 / magnitude v)

/-- SPHERE_RADIUS constant of the source. -/
def SPHERE_RADIUS : ℝ := 1.5

/-- NOISE_AMPLITUDE constant of the source. -/
def NOISE_AMPLITUDE : ℝ := 0.2

/-- lerp of the source at scalar type: v0 + (v1 - v0) * t.min(1).max(0). -/
def lerp (v0 v1 t : ℝ) : ℝ := v0 + (v1 - v0) * max (min t 1) 0

/-- lerp of the source at Vec3 type. -/
def lerpV (v0 v1 : Vec3) (t : ℝ) : Vec3 := v0 + (v1 - v0) * max (min t 1) 0

/-- hash of the source: the fractional part of sin(n) * 43758.5453. -/
def hash (n : ℝ) : ℝ :=
  let x : ℝ := Real.sin n * 43758.5453
  x - ⌊x⌋

/-- Weighting step of the source noise: f is replaced by
f * dot(f, (3,3,3) - f * 2), a Vec3 scaled by one scalar. -/
def dotWeight (f : Vec3) : Vec3 := f * dot f (⟨3, 3, 3⟩ - f * (2 : ℝ))

/-- Modelled from the spec: the classic smoothstep weighting f*f*(3-2f)
applied componentwise per axis, for comparison with dotWeight. -/
def smoothstepWeight (f : Vec3) : Vec3 :=
  ⟨f.x * f.x * (3 - 2 * f.x), f.y * f.y * (3 - 2 * f.y), f.z * f.z * (3 - 2 * f.z)⟩

/-- The nested lerp of the source noise: trilinear interpolation of the hash
values at the eight lattice corners around lattice key n, with the already
weighted fractional part f2. -/
def trilerp (n : ℝ) (f2 : Vec3) : ℝ :=
  lerp
    (lerp (lerp (hash (n + 0)) (hash (n + 1)) f2.x)
      (lerp (hash (n + 57)) (hash (n + 58)) f2.x) f2.y)
    (lerp (lerp (hash (n + 113)) (hash (n + 114)) f2.x)
      (lerp (hash (n + 170)) (hash (n + 171)) f2.x) f2.y)
    f2.z

/-- Body of the source noise function, parametrised by the weighting step
applied to the fractional part before the nested lerp. -/
def noiseWith (w : Vec3 → Vec3) (v : Vec3) : ℝ :=
  let p : Vec3 := ⟨(⌊v.x⌋ : ℝ), (⌊v.y⌋ : ℝ), (⌊v.z⌋ : ℝ)⟩
  let f : Vec3 := ⟨v.x - p.x, v.y - p.y, v.z - p.z⟩
  let f2 : Vec3 := w f
  let n : ℝ := dot p ⟨1, 57, 113⟩
  trilerp n f2

/-- noise of the source: trilinear interpolation of hash values at the eight
lattice corners, with the dot-product weighting of the fractional part. -/
def noise (v : Vec3) : ℝ := noiseWith dotWeight v

/-- Modelled from the spec: the same noise with the classic componentwise
smoothstep weighting instead of the dot-product weighting. -/
def noiseSmooth (v : Vec3) : ℝ := noiseWith smoothstepWeight v

/-- rotate of the source: a fixed 3x3 matrix applied to v, one row per dot. -/
def rotate (v : Vec3) : Vec3 :=
  ⟨dot ⟨0.00, 0.80, 0.60⟩ v, dot ⟨-0.80, 0.36, -0.48⟩ v, dot ⟨-0.60, -0.48, 0.64⟩ v⟩

/-- fractal_brownian_motion of the source: rotate once, four octaves of noise
with cumulative frequency scaling, normalised by 0.9375. -/
def fractal_brownian_motion (p0 : Vec3) : ℝ :=
  let p1 : Vec3 := rotate p0
  let f1 : ℝ := 0.5 * noise p1
  let p2 : Vec3 := p1 * (2.32 : ℝ)
  let f2 : ℝ := f1 + 0.25 * noise p2
  let p3 : Vec3 := p2 * (3.03 : ℝ)
  let f3 : ℝ := f2 + 0.125 * noise p3
  let p4 : Vec3 := p3 * (2.61 : ℝ)
  let f4 : ℝ := f3 + 0.0625 * noise p4
  f4 / 0.9375

/-- YELLOW palette control color of the source, deliberately hotter than 1. -/
def YELLOW : Vec3 := ⟨1.7, 1.3, 1.0⟩

/-- ORANGE palette control color of the source. -/
def ORANGE : Vec3 := ⟨1.0, 0.6, 0.0⟩

/-- RED palette control color of the source. -/
def RED : Vec3 := ⟨1.0, 0.0, 0.0⟩

/-- DARKGREY palette control color of the source. -/
def DARKGREY : Vec3 := ⟨0.2, 0.2, 0.2⟩

/-- GRAY palette control color of the source. -/
def GRAY : Vec3 := ⟨0.4, 0.4, 0.4⟩

/-- palette_fire of the source: clamp the argument, then pick one of four
linear pieces between the control colors. -/
def palette_fire (d : ℝ) : Vec3 :=
  let x : ℝ := max (min d 1) 0
  if x < 0.25 then lerpV GRAY DARKGREY (x * 4)
  else if x < 0.5 then lerpV DARKGREY RED (x * 4 - 1)
  else if x < 0.75 then lerpV RED ORANGE (x * 4 - 2)
  else lerpV ORANGE YELLOW (x * 4 - 3)

/-- signed_distance of the source: distance to a sphere of radius
SPHERE_RADIUS displaced by the turbulence field. -/
def signed_distance (p : Vec3) : ℝ :=
  let displacement : ℝ := -fractal_brownian_motion (p * (3.4 : ℝ)) * NOISE_AMPLITUDE
  magnitude p - (SPHERE_RADIUS + displacement)

/-- The for loop inside sphere_trace, with the remaining iteration count as
fuel: test the signed distance, return the position once it is negative,
otherwise advance by the damped, floored step. -/
def sphere_trace_loop (dir : Vec3) : ℕ → Vec3 → Option Vec3
  | 0, _ => none
  | n + 1, pos =>
    if signed_distance pos < 0 then some pos
    else sphere_trace_loop dir n (pos + dir * max (signed_distance pos * 0.1) 0.01)

/-- sphere_trace of the source: the analytic early discard against the
undisplaced bounding sphere, then 128 march iterations. -/
def sphere_trace (orig dir : Vec3) : Option Vec3 :=
  if dot orig orig - (dot orig dir) ^ 2 > SPHERE_RADIUS ^ 2 then none
  else sphere_trace_loop dir 128 orig

/-- The finite-difference vector assembled inside distance_field_normal,
forward differences with eps = 0.1 on each axis. -/
def dfn_diff (pos : Vec3) : Vec3 :=
  ⟨signed_distance (pos + ⟨0.1, 0, 0⟩) - signed_distance pos,
   signed_distance (pos + ⟨0, 0.1, 0⟩) - signed_distance pos,
   signed_distance (pos + ⟨0, 0, 0.1⟩) - signed_distance pos⟩

/-- distance_field_normal of the source: the normalised finite-difference
gradient of the signed distance field. -/
def distance_field_normal (pos : Vec3) : Vec3 := normalize (dfn_diff pos)

/-- clamp of the source: 255 * val.max(0).min(1) cast to u8.  The cast
truncates toward zero, and the value is within the u8 range, so it is the
floor. -/
def clamp (val : ℝ) : ℕ := (⌊255 * min (max val 0) 1⌋).toNat

/-- WIDTH constant of the source main. -/
def WIDTH : ℕ := 640

/-- HEIGHT constant of the source main. -/
def HEIGHT : ℕ := 480

/-- FOV constant of the source main. -/
def FOV : ℝ := Real.pi / 3

/-- The per-pixel body of the render closure in main: build the primary ray
for pixel column i and row j, trace it, and shade the hit or return the
background color. -/
def pixelColor (i j : ℕ) : Vec3 :=
  let dir_x : ℝ := ((i : ℝ) + 0.5) - (WIDTH : ℝ) / 2
  let dir_y : ℝ := -((j : ℝ) + 0.5) + (HEIGHT : ℝ) / 2
  let dir_z : ℝ := -(HEIGHT : ℝ) / (2 * Real.tan (FOV / 2))
  match sphere_trace ⟨0, 0, 3⟩ (normalize ⟨dir_x, dir_y, dir_z⟩) with
  | some hit =>
    let noise_level : ℝ := (SPHERE_RADIUS - magnitude hit) / NOISE_AMPLITUDE
    let light_dir : Vec3 := normalize (⟨10, 10, 10⟩ - hit)
    let light_intensity : ℝ := max 0.4 (dot light_dir (distance_field_normal hit))
    palette_fire ((-0.2 + noise_level) * 2) * light_intensity
  | none => ⟨0.2, 0.7, 0.8⟩

/-- The index decomposition of the render closure: i = index mod WIDTH and
j = (index - i) / WIDTH, fed to the per-pixel body. -/
def renderIndex (idx : ℕ) : Vec3 :=
  pixelColor (idx % WIDTH) ((idx - idx % WIDTH) / WIDTH)

/-- One framebuffer write of the render loop: cell idx receives its color,
every other cell is untouched. -/
def renderWrite (fb : ℕ → Vec3) (idx : ℕ) : ℕ → Vec3 :=
  fun k => if k = idx then renderIndex idx else fb k

/-- The render pass over a given schedule of cell indices, starting from the
all-black framebuffer vec![Vec3::new(0,0,0); WIDTH*HEIGHT] of the source. -/
def renderFold (order : List ℕ) : ℕ → Vec3 :=
  order.foldl renderWrite (fun _ => ⟨0, 0, 0⟩)

/-- The image byte stream of the source main: for every framebuffer cell the
three clamped color bytes followed by the constant 255 alpha byte. -/
def imageData (fb : List Vec3) : List ℕ :=
  fb.flatMap (fun v => [clamp v.x, clamp v.y, clamp v.z, 255])

end

noncomputable section

/-- The clamped interpolation parameter of lerp lies in the unit interval. -/
theorem clamp01_mem (t : ℝ) : 0 ≤ max (min t 1) 0 ∧ max (min t 1) 0 ≤ 1 := by
  constructor
  · exact le_max_right _ _
  · exact max_le (min_le_right _ _) zero_le_one

/-- lerp stays between its endpoints. -/
theorem lerp_between (a b t : ℝ) : min a b ≤ lerp a b t ∧ lerp a b t ≤ max a b := by
  obtain ⟨h0, h1⟩ := clamp01_mem t
  unfold lerp
  constructor
  · rcases le_total a b with hab | hab
    · rw [min_eq_left hab]; nlinarith
    · rw [min_eq_right hab]; nlinarith
  · rcases le_total a b with hab | hab
    · rw [max_eq_right hab]; nlinarith
    · rw [max_eq_left hab]; nlinarith

/-- lerp of unit-interval endpoints stays in the unit interval. -/
theorem lerp_mem_unit {a b : ℝ} (t : ℝ) (ha0 : 0 ≤ a) (ha1 : a ≤ 1)
    (hb0 : 0 ≤ b) (hb1 : b ≤ 1) : 0 ≤ lerp a b t ∧ lerp a b t ≤ 1 := by
  obtain ⟨hlo, hhi⟩ := lerp_between a b t
  constructor
  · exact le_trans (le_min ha0 hb0) hlo
  · exact le_trans hhi (max_le ha1 hb1)

/-- lerp at parameter 0 returns the first endpoint. -/
theorem lerp_tzero (a b : ℝ) : lerp a b 0 = a := by
  unfold lerp; norm_num

/-- lerp at parameter 1 returns the second endpoint. -/
theorem lerp_tone (a b : ℝ) : lerp a b 1 = b := by
  unfold lerp; norm_num

/-- Vector lerp at parameter 0 returns the first endpoint. -/
theorem lerpV_tzero (a b : Vec3) : lerpV a b 0 = a := by
  unfold lerpV
  ext <;> simp

/-- Vector lerp at parameter 1 returns the second endpoint. -/
theorem lerpV_tone (a b : Vec3) : lerpV a b 1 = b := by
  unfold lerpV
  ext <;> simp

/-- hash is the fractional part of sin(n) * 43758.5453. -/
theorem hash_eq_fract (n : ℝ) : hash n = Int.fract (Real.sin n * 43758.5453) := rfl

/-- hash is nonnegative. -/
theorem hash_nonneg (n : ℝ) : 0 ≤ hash n := by
  rw [hash_eq_fract]; exact Int.fract_nonneg _

/-- hash is below one. -/
theorem hash_lt_one (n : ℝ) : hash n < 1 := by
  rw [hash_eq_fract]; exact Int.fract_lt_one _

/-- hash at 0 evaluates to 0. -/
theorem hash_zero : hash 0 = 0 := by
  rw [hash_eq_fract]
  simp

/-- noiseWith unfolded: the trilerp of the lattice key and the weighted
fractional part. -/
theorem noiseWith_eq (w : Vec3 → Vec3) (v : Vec3) :
    noiseWith w v =
      trilerp (dot ⟨(⌊v.x⌋ : ℝ), (⌊v.y⌋ : ℝ), (⌊v.z⌋ : ℝ)⟩ ⟨1, 57, 113⟩)
        (w ⟨v.x - (⌊v.x⌋ : ℝ), v.y - (⌊v.y⌋ : ℝ), v.z - (⌊v.z⌋ : ℝ)⟩) := rfl

/-- trilerp of hash values lands in the unit interval. -/
theorem trilerp_mem (n : ℝ) (f2 : Vec3) : 0 ≤ trilerp n f2 ∧ trilerp n f2 ≤ 1 := by
  unfold trilerp
  have h1 : ∀ a b t : ℝ, 0 ≤ lerp (hash a) (hash b) t ∧ lerp (hash a) (hash b) t ≤ 1 :=
    fun a b t => lerp_mem_unit t (hash_nonneg a) (le_of_lt (hash_lt_one a))
      (hash_nonneg b) (le_of_lt (hash_lt_one b))
  obtain ⟨a0, a1⟩ := h1 (n + 0) (n + 1) f2.x
  obtain ⟨b0, b1⟩ := h1 (n + 57) (n + 58) f2.x
  obtain ⟨c0, c1⟩ := h1 (n + 113) (n + 114) f2.x
  obtain ⟨d0, d1⟩ := h1 (n + 170) (n + 171) f2.x
  obtain ⟨e0, e1⟩ := lerp_mem_unit f2.y a0 a1 b0 b1
  obtain ⟨g0, g1⟩ := lerp_mem_unit f2.y c0 c1 d0 d1
  exact lerp_mem_unit f2.z e0 e1 g0 g1

/-- The noise body lands in the unit interval for every weighting. -/
theorem noiseWith_mem (w : Vec3 → Vec3) (v : Vec3) :
    0 ≤ noiseWith w v ∧ noiseWith w v ≤ 1 := by
  rw [noiseWith_eq]
  exact trilerp_mem _ _

/-- noise lands in the unit interval. -/
theorem noise_mem (v : Vec3) : 0 ≤ noise v ∧ noise v ≤ 1 :=
  noiseWith_mem dotWeight v

/-- Scaling the zero vector yields the zero vector. -/
theorem vsmul_zero_left (s : ℝ) : (0 : Vec3) * s = 0 := by
  ext <;> simp

/-- rotate maps the zero vector to the zero vector. -/
theorem rotate_zero : rotate 0 = 0 := by
  unfold rotate dot
  ext <;> simp

/-- noise at the zero vector evaluates to 0. -/
theorem noise_zero : noise 0 = 0 := by
  have h : noise 0 = trilerp 0 ⟨0, 0, 0⟩ := by
    rw [noise, noiseWith_eq]
    norm_num [dotWeight, dot]
    congr 1
    ext <;> simp
  rw [h]
  unfold trilerp
  norm_num [lerp_tzero, hash_zero]

/-- fractal_brownian_motion unfolded into its four octaves. -/
theorem fbm_eq (p : Vec3) :
    fractal_brownian_motion p =
      (0.5 * noise (rotate p) + 0.25 * noise (rotate p * (2.32 : ℝ)) +
        0.125 * noise (rotate p * (2.32 : ℝ) * (3.03 : ℝ)) +
        0.0625 * noise (rotate p * (2.32 : ℝ) * (3.03 : ℝ) * (2.61 : ℝ))) / 0.9375 := rfl

/-- fractal_brownian_motion at the zero vector evaluates to 0. -/
theorem fbm_zero : fractal_brownian_motion 0 = 0 := by
  rw [fbm_eq, rotate_zero]
  simp only [vsmul_zero_left, noise_zero]
  norm_num

/-- fractal_brownian_motion lands in the unit interval. -/
theorem fbm_mem (p : Vec3) :
    0 ≤ fractal_brownian_motion p ∧ fractal_brownian_motion p ≤ 1 := by
  rw [fbm_eq]
  obtain ⟨a0, a1⟩ := noise_mem (rotate p)
  obtain ⟨b0, b1⟩ := noise_mem (rotate p * (2.32 : ℝ))
  obtain ⟨c0, c1⟩ := noise_mem (rotate p * (2.32 : ℝ) * (3.03 : ℝ))
  obtain ⟨d0, d1⟩ := noise_mem (rotate p * (2.32 : ℝ) * (3.03 : ℝ) * (2.61 : ℝ))
  constructor
  · apply div_nonneg _ (by norm_num)
    linarith
  · rw [div_le_one (by norm_num)]
    linarith

/-- The dot square of a vector with itself is nonnegative. -/
theorem dot_self_nonneg (v : Vec3) : 0 ≤ dot v v := by
  unfold dot
  nlinarith [mul_self_nonneg v.x, mul_self_nonneg v.y, mul_self_nonneg v.z]

/-- The magnitude is nonnegative. -/
theorem magnitude_nonneg (v : Vec3) : 0 ≤ magnitude v := Real.sqrt_nonneg _

/-- The magnitude of the zero vector is 0. -/
theorem magnitude_zero : magnitude 0 = 0 := by
  unfold magnitude dot
  simp

/-- The squared magnitude recovers the dot square. -/
theorem sq_magnitude (v : Vec3) : magnitude v ^ 2 = dot v v :=
  Real.sq_sqrt (dot_self_nonneg v)

/-- The magnitude of a vector on the positive x axis is its x component. -/
theorem magnitude_axis (a : ℝ) (h : 0 ≤ a) : magnitude ⟨a, 0, 0⟩ = a := by
  unfold magnitude dot
  simp only
  rw [show a * a + 0 * 0 + 0 * 0 = a ^ 2 by ring]
  exact Real.sqrt_sq h

/-- The dot square of a nonzero vector is positive. -/
theorem dot_self_pos {v : Vec3} (h : v ≠ 0) : 0 < dot v v := by
  rcases lt_or_eq_of_le (dot_self_nonneg v) with hp | hz
  · exact hp
  · exfalso
    apply h
    replace hz := hz.symm
    unfold dot at hz
    have hx : v.x = 0 := by nlinarith [mul_self_nonneg v.x, mul_self_nonneg v.y, mul_self_nonneg v.z]
    have hy : v.y = 0 := by nlinarith [mul_self_nonneg v.x, mul_self_nonneg v.y, mul_self_nonneg v.z]
    have hz2 : v.z = 0 := by nlinarith [mul_self_nonneg v.x, mul_self_nonneg v.y, mul_self_nonneg v.z]
    ext <;> simp [hx, hy, hz2]

/-- The magnitude of a nonzero vector is positive. -/
theorem magnitude_pos {v : Vec3} (h : v ≠ 0) : 0 < magnitude v :=
  Real.sqrt_pos.mpr (dot_self_pos h)

/-- Magnitude scales by the absolute value of the scalar. -/
theorem magnitude_smul (v : Vec3) (s : ℝ) : magnitude (v * s) = |s| * magnitude v := by
  unfold magnitude
  rw [show dot (v * s) (v * s) = s ^ 2 * dot v v by unfold dot; simp; ring]
  rw [Real.sqrt_mul (sq_nonneg s), Real.sqrt_sq_eq_abs]

/-- The normalisation of a nonzero vector has magnitude one. -/
theorem magnitude_normalize {v : Vec3} (h : v ≠ 0) : magnitude (normalize v) = 1 := by
  unfold normalize
  rw [magnitude_smul]
  have hm := magnitude_pos h
  rw [abs_of_pos (by positivity)]
  field_simp

/-- The signed distance is bounded below by the distance to the undisplaced
bounding sphere. -/
theorem signed_distance_lb (p : Vec3) :
    magnitude p - SPHERE_RADIUS ≤ signed_distance p := by
  unfold signed_distance NOISE_AMPLITUDE
  obtain ⟨h0, _⟩ := fbm_mem (p * (3.4 : ℝ))
  nlinarith

/-- The signed distance at the origin point evaluates to minus the radius. -/
theorem signed_distance_zero : signed_distance 0 = -SPHERE_RADIUS := by
  unfold signed_distance
  rw [vsmul_zero_left, fbm_zero, magnitude_zero]
  norm_num

end

noncomputable section

/-- A successful march result has negative signed distance. -/
theorem loop_some_sd (dir : Vec3) (n : ℕ) : ∀ p q : Vec3,
    sphere_trace_loop dir n p = some q → signed_distance q < 0 := by
  induction n with
  | zero =>
    intro p q h
    simp [sphere_trace_loop] at h
  | succ n ih =>
    intro p q h
    unfold sphere_trace_loop at h
    by_cases hd : signed_distance p < 0
    · rw [if_pos hd] at h
      have hpq : p = q := by injection h
      subst hpq
      exact hd
    · rw [if_neg hd] at h
      exact ih _ _ h

/-- Claim C1: sphere_trace returns no hit immediately when the perpendicular
squared distance bound exceeds the squared radius; otherwise it runs the
128-iteration march from the origin, which returns the first position whose
signed distance is negative, advances by direction times
max(d * 0.1, 0.01) when d is nonnegative, and yields no hit once the fuel is
exhausted; any hit returned has negative signed distance. -/
theorem C1_sphere_trace :
    (∀ orig dir : Vec3, dot orig orig - (dot orig dir) ^ 2 > SPHERE_RADIUS ^ 2 →
      sphere_trace orig dir = none) ∧
    (∀ orig dir : Vec3, ¬(dot orig orig - (dot orig dir) ^ 2 > SPHERE_RADIUS ^ 2) →
      sphere_trace orig dir = sphere_trace_loop dir 128 orig) ∧
    (∀ dir pos : Vec3, ∀ n : ℕ, signed_distance pos < 0 →
      sphere_trace_loop dir (n + 1) pos = some pos) ∧
    (∀ dir pos : Vec3, ∀ n : ℕ, ¬signed_distance pos < 0 →
      sphere_trace_loop dir (n + 1) pos =
        sphere_trace_loop dir n (pos + dir * max (signed_distance pos * 0.1) 0.01)) ∧
    (∀ dir pos : Vec3, sphere_trace_loop dir 0 pos = none) ∧
    (∀ orig dir pos : Vec3, sphere_trace orig dir = some pos → signed_distance pos < 0) := by
  refine ⟨?_, ?_, ?_, ?_, ?_, ?_⟩
  · intro orig dir h
    unfold sphere_trace
    rw [if_pos h]
  · intro orig dir h
    unfold sphere_trace
    rw [if_neg h]
  · intro dir pos n h
    conv_lhs => rw [sphere_trace_loop]
    rw [if_pos h]
  · intro dir pos n h
    conv_lhs => rw [sphere_trace_loop]
    rw [if_neg h]
  · intro dir pos
    rfl
  · intro orig dir pos h
    unfold sphere_trace at h
    by_cases hb : dot orig orig - (dot orig dir) ^ 2 > SPHERE_RADIUS ^ 2
    · rw [if_pos hb] at h
      exact absurd h (by simp)
    · rw [if_neg hb] at h
      exact loop_some_sd dir 128 orig pos h

/-- Witness for C1 at concrete rays: an early-rejected ray, a ray entering
the march, a hit at the camera-free origin point, one advancing step, fuel
exhaustion, and a hit with negative signed distance. -/
theorem C1_sphere_trace_witness :
    sphere_trace ⟨3, 0, 0⟩ ⟨0, 0, 1⟩ = none ∧
    sphere_trace ⟨0, 0, 0⟩ ⟨0, 0, 1⟩ = sphere_trace_loop ⟨0, 0, 1⟩ 128 ⟨0, 0, 0⟩ ∧
    sphere_trace_loop ⟨0, 0, 1⟩ 5 ⟨0, 0, 0⟩ = some ⟨0, 0, 0⟩ ∧
    sphere_trace_loop ⟨0, 0, 1⟩ 1 ⟨2, 0, 0⟩ =
      sphere_trace_loop ⟨0, 0, 1⟩ 0
        ((⟨2, 0, 0⟩ : Vec3) + (⟨0, 0, 1⟩ : Vec3) * max (signed_distance ⟨2, 0, 0⟩ * 0.1) 0.01) ∧
    sphere_trace_loop ⟨0, 0, 1⟩ 0 ⟨1, 1, 1⟩ = none ∧
    sphere_trace ⟨0, 0, 0⟩ ⟨0, 0, 1⟩ = some ⟨0, 0, 0⟩ ∧
    signed_distance ⟨0, 0, 0⟩ < 0 := by
  have hsd0 : signed_distance ⟨0, 0, 0⟩ < 0 := by
    rw [show (⟨0, 0, 0⟩ : Vec3) = 0 from rfl, signed_distance_zero]
    norm_num [SPHERE_RADIUS]
  have hsd2 : ¬ signed_distance ⟨2, 0, 0⟩ < 0 := by
    have hm : magnitude ⟨2, 0, 0⟩ = 2 := magnitude_axis 2 (by norm_num)
    have hl := signed_distance_lb ⟨2, 0, 0⟩
    rw [hm] at hl
    rw [not_lt]
    unfold SPHERE_RADIUS at hl
    norm_num at hl
    linarith
  have h2 : sphere_trace ⟨0, 0, 0⟩ ⟨0, 0, 1⟩ = sphere_trace_loop ⟨0, 0, 1⟩ 128 ⟨0, 0, 0⟩ :=
    C1_sphere_trace.2.1 _ _ (by norm_num [dot, SPHERE_RADIUS])
  have h6 : sphere_trace ⟨0, 0, 0⟩ ⟨0, 0, 1⟩ = some ⟨0, 0, 0⟩ := by
    rw [h2]
    exact C1_sphere_trace.2.2.1 _ _ 127 hsd0
  refine ⟨C1_sphere_trace.1 _ _ (by norm_num [dot, SPHERE_RADIUS]), h2,
    C1_sphere_trace.2.2.1 _ _ 4 hsd0,
    C1_sphere_trace.2.2.2.1 _ _ 0 hsd2,
    C1_sphere_trace.2.2.2.2.1 _ _, h6,
    C1_sphere_trace.2.2.2.2.2 _ _ _ h6⟩

/-- A march started on the bounding sphere along the outward x axis keeps a
nonnegative signed distance forever and therefore never reports a hit. -/
theorem loop_outward_none : ∀ (n : ℕ) (a : ℝ), (3 / 2 : ℝ) ≤ a →
    sphere_trace_loop ⟨1, 0, 0⟩ n ⟨a, 0, 0⟩ = none := by
  intro n
  induction n with
  | zero => intro a _; rfl
  | succ n ih =>
    intro a ha
    unfold sphere_trace_loop
    have hm : magnitude ⟨a, 0, 0⟩ = a := magnitude_axis a (by linarith)
    have hl := signed_distance_lb ⟨a, 0, 0⟩
    rw [hm] at hl
    unfold SPHERE_RADIUS at hl
    norm_num at hl
    have hsd : ¬ signed_distance ⟨a, 0, 0⟩ < 0 := by
      rw [not_lt]; linarith
    rw [if_neg hsd]
    have hstep : (0.01 : ℝ) ≤ max (signed_distance ⟨a, 0, 0⟩ * 0.1) 0.01 :=
      le_max_right _ _
    have hnew : (⟨a, 0, 0⟩ : Vec3) + (⟨1, 0, 0⟩ : Vec3) * max (signed_distance ⟨a, 0, 0⟩ * 0.1) 0.01 =
        ⟨a + max (signed_distance ⟨a, 0, 0⟩ * 0.1) 0.01, 0, 0⟩ := by
      ext <;> simp
    rw [hnew]
    refine ih _ ?_
    linarith

/-- Counterexample to C3: the origin (1.5,0,0) lies within magnitude R of the
coordinate origin and the direction (1,0,0) is unit length, yet sphere_trace
returns no hit, because the outward march never reaches a negative signed
distance in 128 iterations. -/
theorem C3_counterexample :
    magnitude ⟨3 / 2, 0, 0⟩ ≤ SPHERE_RADIUS ∧
    magnitude ⟨1, 0, 0⟩ = 1 ∧
    sphere_trace ⟨3 / 2, 0, 0⟩ ⟨1, 0, 0⟩ = none := by
  have hm : magnitude ⟨3 / 2, 0, 0⟩ = 3 / 2 := magnitude_axis _ (by norm_num)
  refine ⟨by rw [hm]; norm_num [SPHERE_RADIUS], magnitude_axis 1 (by norm_num), ?_⟩
  unfold sphere_trace
  rw [if_neg (by norm_num [dot, SPHERE_RADIUS])]
  exact loop_outward_none 128 (3 / 2) le_rfl

/-- Claim C3 amended: for every origin within magnitude R of the coordinate
origin the early-reject test never fires, so sphere_trace proceeds to the
full 128-iteration march; the march itself need not find a hit. -/
theorem C3_no_false_reject :
    ∀ orig dir : Vec3, magnitude orig ≤ SPHERE_RADIUS →
      sphere_trace orig dir = sphere_trace_loop dir 128 orig := by
  intro o d h
  unfold sphere_trace
  rw [if_neg]
  rw [not_lt]
  have h2 : dot o o ≤ SPHERE_RADIUS ^ 2 := by
    rw [← sq_magnitude]
    exact pow_le_pow_left₀ (magnitude_nonneg o) h 2
  have h3 : 0 ≤ (dot o d) ^ 2 := sq_nonneg _
  linarith

/-- Witness for the amended C3 at a concrete interior origin. -/
theorem C3_no_false_reject_witness :
    sphere_trace ⟨1, 0, 0⟩ ⟨0, 1, 0⟩ = sphere_trace_loop ⟨0, 1, 0⟩ 128 ⟨1, 0, 0⟩ := by
  refine C3_no_false_reject _ _ ?_
  rw [magnitude_axis 1 (by norm_num)]
  norm_num [SPHERE_RADIUS]

/-- Claim C5: fractal_brownian_motion rotates once, sums four octaves of
noise at amplitudes 0.5, 0.25, 0.125, 0.0625 with the argument scaled
cumulatively by 2.32, 3.03, 2.61 between octaves, divides by 0.9375, and the
rotation matrix has the stated rows; it is a function of its argument alone. -/
theorem C5_fbm_structure : ∀ p : Vec3,
    fractal_brownian_motion p =
      (0.5 * noise (rotate p) + 0.25 * noise (rotate p * (2.32 : ℝ)) +
        0.125 * noise (rotate p * (2.32 : ℝ) * (3.03 : ℝ)) +
        0.0625 * noise (rotate p * (2.32 : ℝ) * (3.03 : ℝ) * (2.61 : ℝ))) / 0.9375 ∧
    rotate p = ⟨dot ⟨0, 0.8, 0.6⟩ p, dot ⟨-0.8, 0.36, -0.48⟩ p,
      dot ⟨-0.6, -0.48, 0.64⟩ p⟩ := by
  intro p
  refine ⟨fbm_eq p, ?_⟩
  unfold rotate
  norm_num

/-- The clamp to the unit interval is the identity on the unit interval. -/
theorem clamp01_id {x : ℝ} (h0 : 0 ≤ x) (h1 : x ≤ 1) : max (min x 1) 0 = x := by
  rw [min_eq_left h1, max_eq_left h0]

/-- Claim C6: palette_fire clamps to the unit interval and interpolates
linearly on four equal sub-ranges through gray, dark-gray, red, orange,
yellow with local parameter x*4 - k; the endpoint values are gray and
yellow, and both sides of the boundary at 1/4 give dark-gray exactly. -/
theorem C6_palette :
    palette_fire 0 = GRAY ∧
    palette_fire 1 = YELLOW ∧
    palette_fire 0.25 = DARKGREY ∧
    lerpV GRAY DARKGREY ((0.25 : ℝ) * 4) = DARKGREY ∧
    (∀ d : ℝ, d ≤ 0 → palette_fire d = GRAY) ∧
    (∀ d : ℝ, 1 ≤ d → palette_fire d = YELLOW) ∧
    (∀ x : ℝ, 0 ≤ x → x < 0.25 → palette_fire x = lerpV GRAY DARKGREY (x * 4)) ∧
    (∀ x : ℝ, 0.25 ≤ x → x < 0.5 → palette_fire x = lerpV DARKGREY RED (x * 4 - 1)) ∧
    (∀ x : ℝ, 0.5 ≤ x → x < 0.75 → palette_fire x = lerpV RED ORANGE (x * 4 - 2)) ∧
    (∀ x : ℝ, 0.75 ≤ x → x ≤ 1 → palette_fire x = lerpV ORANGE YELLOW (x * 4 - 3)) := by
  have piece1 : ∀ x : ℝ, 0 ≤ x → x < 0.25 → palette_fire x = lerpV GRAY DARKGREY (x * 4) := by
    intro x h0 hx
    simp only [palette_fire]
    rw [clamp01_id h0 (by norm_num at hx ⊢; linarith), if_pos hx]
  have piece2 : ∀ x : ℝ, 0.25 ≤ x → x < 0.5 →
      palette_fire x = lerpV DARKGREY RED (x * 4 - 1) := by
    intro x h0 hx
    simp only [palette_fire]
    rw [clamp01_id (by norm_num at h0 ⊢; linarith) (by norm_num at hx ⊢; linarith),
      if_neg (not_lt.mpr h0), if_pos hx]
  have piece3 : ∀ x : ℝ, 0.5 ≤ x → x < 0.75 →
      palette_fire x = lerpV RED ORANGE (x * 4 - 2) := by
    intro x h0 hx
    simp only [palette_fire]
    rw [clamp01_id (by norm_num at h0 ⊢; linarith) (by norm_num at hx ⊢; linarith),
      if_neg (by rw [not_lt]; norm_num at h0 ⊢; linarith),
      if_neg (not_lt.mpr h0), if_pos hx]
  have piece4 : ∀ x : ℝ, 0.75 ≤ x → x ≤ 1 →
      palette_fire x = lerpV ORANGE YELLOW (x * 4 - 3) := by
    intro x h0 hx
    simp only [palette_fire]
    rw [clamp01_id (by norm_num at h0 ⊢; linarith) hx,
      if_neg (by rw [not_lt]; norm_num at h0 ⊢; linarith),
      if_neg (by rw [not_lt]; norm_num at h0 ⊢; linarith),
      if_neg (not_lt.mpr h0)]
  have hzero : palette_fire 0 = GRAY := by
    rw [piece1 0 le_rfl (by norm_num), show (0 : ℝ) * 4 = 0 from by ring, lerpV_tzero]
  have hone : palette_fire 1 = YELLOW := by
    rw [piece4 1 (by norm_num) le_rfl, show (1 : ℝ) * 4 - 3 = 1 from by ring, lerpV_tone]
  have hquarter : palette_fire 0.25 = DARKGREY := by
    rw [piece2 0.25 le_rfl (by norm_num), show (0.25 : ℝ) * 4 - 1 = 0 from by norm_num,
      lerpV_tzero]
  have hleft : lerpV GRAY DARKGREY ((0.25 : ℝ) * 4) = DARKGREY := by
    rw [show (0.25 : ℝ) * 4 = 1 from by norm_num, lerpV_tone]
  have hlow : ∀ d : ℝ, d ≤ 0 → palette_fire d = GRAY := by
    intro d hd
    simp only [palette_fire]
    rw [show max (min d 1) 0 = 0 from by rw [min_eq_left (by linarith), max_eq_right hd],
      if_pos (by norm_num), show (0 : ℝ) * 4 = 0 from by ring, lerpV_tzero]
  have hhigh : ∀ d : ℝ, 1 ≤ d → palette_fire d = YELLOW := by
    intro d hd
    simp only [palette_fire]
    rw [show max (min d 1) 0 = 1 from by rw [min_eq_right hd]; norm_num,
      if_neg (by norm_num), if_neg (by norm_num), if_neg (by norm_num),
      show (1 : ℝ) * 4 - 3 = 1 from by ring, lerpV_tone]
  exact ⟨hzero, hone, hquarter, hleft, hlow, hhigh, piece1, piece2, piece3, piece4⟩

/-- Witness for C6 at concrete palette arguments in every piece and beyond
both clamp ends. -/
theorem C6_palette_witness :
    palette_fire 0.1 = lerpV GRAY DARKGREY ((0.1 : ℝ) * 4) ∧
    palette_fire 0.3 = lerpV DARKGREY RED ((0.3 : ℝ) * 4 - 1) ∧
    palette_fire 0.6 = lerpV RED ORANGE ((0.6 : ℝ) * 4 - 2) ∧
    palette_fire 0.8 = lerpV ORANGE YELLOW ((0.8 : ℝ) * 4 - 3) ∧
    palette_fire (-2) = GRAY ∧
    palette_fire 2 = YELLOW :=
  ⟨C6_palette.2.2.2.2.2.2.1 0.1 (by norm_num) (by norm_num),
   C6_palette.2.2.2.2.2.2.2.1 0.3 (by norm_num) (by norm_num),
   C6_palette.2.2.2.2.2.2.2.2.1 0.6 (by norm_num) (by norm_num),
   C6_palette.2.2.2.2.2.2.2.2.2 0.8 (by norm_num) (by norm_num),
   C6_palette.2.2.2.2.1 (-2) (by norm_num),
   C6_palette.2.2.2.2.2.1 2 (by norm_num)⟩

/-- Claim C7: distance_field_normal is the normalised vector of per-axis
forward differences with eps 0.1, and whenever that difference vector is
nonzero the result has magnitude one. -/
theorem C7_normal :
    (∀ pos : Vec3, distance_field_normal pos = normalize (dfn_diff pos) ∧
      dfn_diff pos = ⟨signed_distance (pos + ⟨0.1, 0, 0⟩) - signed_distance pos,
        signed_distance (pos + ⟨0, 0.1, 0⟩) - signed_distance pos,
        signed_distance (pos + ⟨0, 0, 0.1⟩) - signed_distance pos⟩) ∧
    (∀ pos : Vec3, dfn_diff pos ≠ 0 → magnitude (distance_field_normal pos) = 1) := by
  refine ⟨fun pos => ⟨rfl, rfl⟩, fun pos h => ?_⟩
  unfold distance_field_normal
  exact magnitude_normalize h

/-- Witness for C7 at the coordinate origin, where the x-axis forward
difference is provably at least 0.1. -/
theorem C7_normal_witness :
    dfn_diff ⟨0, 0, 0⟩ ≠ 0 ∧ magnitude (distance_field_normal ⟨0, 0, 0⟩) = 1 := by
  have hadd : (⟨0, 0, 0⟩ : Vec3) + ⟨0.1, 0, 0⟩ = ⟨0.1, 0, 0⟩ := by ext <;> simp
  have hx : (dfn_diff ⟨0, 0, 0⟩).x =
      signed_distance ⟨0.1, 0, 0⟩ - signed_distance ⟨0, 0, 0⟩ := by
    unfold dfn_diff
    rw [hadd]
  have hsd0 : signed_distance ⟨0, 0, 0⟩ = -SPHERE_RADIUS := by
    rw [show (⟨0, 0, 0⟩ : Vec3) = 0 from rfl, signed_distance_zero]
  have hlb := signed_distance_lb ⟨0.1, 0, 0⟩
  rw [magnitude_axis 0.1 (by norm_num)] at hlb
  have hpos : (0 : ℝ) < (dfn_diff ⟨0, 0, 0⟩).x := by
    rw [hx, hsd0]
    unfold SPHERE_RADIUS at hlb ⊢
    norm_num at hlb ⊢
    linarith
  have hne : dfn_diff ⟨0, 0, 0⟩ ≠ 0 := by
    intro h
    rw [h] at hpos
    simp at hpos
  exact ⟨hne, C7_normal.2 _ hne⟩

/-- Claim C9: hash lands in the unit half-open interval, lerp is a convex
combination of its endpoints thanks to the clamped parameter, noise and
fractal_brownian_motion land in the unit interval, the displacement lies in
the interval from minus the amplitude to zero, and the signed distance is at
least the magnitude minus the radius, so the displaced surface stays inside
the radius-1.5 ball and the early reject is conservative. -/
theorem C9_ranges :
    (∀ n : ℝ, 0 ≤ hash n ∧ hash n < 1) ∧
    (∀ v0 v1 t : ℝ, ∃ s : ℝ, 0 ≤ s ∧ s ≤ 1 ∧ lerp v0 v1 t = (1 - s) * v0 + s * v1) ∧
    (∀ p : Vec3, 0 ≤ noise p ∧ noise p ≤ 1) ∧
    (∀ p : Vec3, 0 ≤ fractal_brownian_motion p ∧ fractal_brownian_motion p ≤ 1) ∧
    (∀ p : Vec3, -NOISE_AMPLITUDE ≤ -fractal_brownian_motion (p * (3.4 : ℝ)) * NOISE_AMPLITUDE ∧
      -fractal_brownian_motion (p * (3.4 : ℝ)) * NOISE_AMPLITUDE ≤ 0) ∧
    (∀ p : Vec3, magnitude p - SPHERE_RADIUS ≤ signed_distance p) := by
  refine ⟨fun n => ⟨hash_nonneg n, hash_lt_one n⟩, ?_, noise_mem, fbm_mem, ?_, signed_distance_lb⟩
  · intro v0 v1 t
    obtain ⟨h0, h1⟩ := clamp01_mem t
    exact ⟨max (min t 1) 0, h0, h1, by unfold lerp; ring⟩
  · intro p
    obtain ⟨h0, h1⟩ := fbm_mem (p * (3.4 : ℝ))
    unfold NOISE_AMPLITUDE
    constructor <;> nlinarith

end

noncomputable section

/-- Counterexample to C4: at fractional part (0.5, 0.5, 0) the dot-product
weighting of the source gives (1, 1, 0) while componentwise smoothstep gives
(0.5, 0.5, 0), so the two weightings are not equivalent. -/
theorem C4_counterexample :
    dotWeight ⟨1 / 2, 1 / 2, 0⟩ ≠ smoothstepWeight ⟨1 / 2, 1 / 2, 0⟩ ∧
    dotWeight ⟨1 / 2, 1 / 2, 0⟩ = ⟨1, 1, 0⟩ ∧
    smoothstepWeight ⟨1 / 2, 1 / 2, 0⟩ = ⟨1 / 2, 1 / 2, 0⟩ := by
  have h1 : dotWeight ⟨1 / 2, 1 / 2, 0⟩ = ⟨1, 1, 0⟩ := by
    ext <;> norm_num [dotWeight, dot]
  have h2 : smoothstepWeight ⟨1 / 2, 1 / 2, 0⟩ = ⟨1 / 2, 1 / 2, 0⟩ := by
    ext <;> norm_num [smoothstepWeight]
  refine ⟨?_, h1, h2⟩
  rw [h1, h2]
  intro h
  have hx := congrArg Vec3.x h
  norm_num at hx

/-- Claim C4 amended: the dot-product weighting agrees with the classic
componentwise smoothstep only in the degenerate case where at most the x
fractional component is nonzero; for such points the noise built on either
weighting coincides. -/
theorem C4_single_axis : ∀ v : Vec3, Int.fract v.y = 0 → Int.fract v.z = 0 →
    noise v = noiseSmooth v := by
  intro v hy hz
  have hy2 : v.y - (⌊v.y⌋ : ℝ) = 0 := by rw [Int.self_sub_floor]; exact hy
  have hz2 : v.z - (⌊v.z⌋ : ℝ) = 0 := by rw [Int.self_sub_floor]; exact hz
  rw [noise, noiseSmooth, noiseWith_eq, noiseWith_eq, hy2, hz2]
  congr 1
  ext <;> simp [dotWeight, smoothstepWeight, dot] <;> ring

/-- Witness for the amended C4 at a point whose y and z components are
integral. -/
theorem C4_single_axis_witness :
    Int.fract ((⟨1 / 2, 3, 0⟩ : Vec3).y) = 0 ∧
    Int.fract ((⟨1 / 2, 3, 0⟩ : Vec3).z) = 0 ∧
    noise ⟨1 / 2, 3, 0⟩ = noiseSmooth ⟨1 / 2, 3, 0⟩ := by
  have hy : Int.fract ((3 : ℝ)) = 0 := by
    rw [show (3 : ℝ) = ((3 : ℤ) : ℝ) from by norm_num, Int.fract_intCast]
  have hz : Int.fract ((0 : ℝ)) = 0 := Int.fract_zero
  exact ⟨hy, hz, C4_single_axis _ hy hz⟩

/-- Counterexample to C8: the output byte is the truncation, not the
rounding, of 255 times the clamped component; at c = 0.999 the code yields
byte 254 while rounding would yield 255. -/
theorem C8_counterexample :
    clamp (999 / 1000) = 254 ∧
    round ((255 : ℝ) * min (max ((999 : ℝ) / 1000) 0) 1) = 255 ∧
    (254 : ℕ) ≠ 255 := by
  have hmm : min (max ((999 : ℝ) / 1000) 0) 1 = 999 / 1000 := by
    rw [max_eq_left (by norm_num), min_eq_left (by norm_num)]
  refine ⟨?_, ?_, by norm_num⟩
  · unfold clamp
    rw [hmm]
    have hfloor : ⌊(255 : ℝ) * (999 / 1000)⌋ = 254 := by
      rw [Int.floor_eq_iff]
      constructor <;> push_cast <;> norm_num
    rw [hfloor]
    rfl
  · rw [hmm, round_eq, Int.floor_eq_iff]
    constructor <;> push_cast <;> norm_num

/-- Claim C8 amended: every output byte is the floor (truncation) of 255
times the clamped component; nonpositive components give 0, components at or
above 1 give 255, no byte exceeds 255, and every fourth byte of the image
stream is the constant 255 alpha. -/
theorem C8_quantize :
    (∀ c : ℝ, (clamp c : ℤ) = ⌊255 * min (max c 0) 1⌋) ∧
    (∀ c : ℝ, c ≤ 0 → clamp c = 0) ∧
    (∀ c : ℝ, 1 ≤ c → clamp c = 255) ∧
    (∀ c : ℝ, clamp c ≤ 255) ∧
    (∀ (fb : List Vec3) (i : ℕ), i < fb.length →
      (imageData fb).get? (4 * i + 3) = some 255) := by
  have h255 : ⌊(255 : ℝ)⌋ = 255 := Int.floor_ofNat 255
  have hmem : ∀ c : ℝ, 0 ≤ min (max c 0) 1 ∧ min (max c 0) 1 ≤ 1 := fun c =>
    ⟨le_min (le_max_right c 0) zero_le_one, min_le_right _ _⟩
  have part1 : ∀ c : ℝ, (clamp c : ℤ) = ⌊255 * min (max c 0) 1⌋ := by
    intro c
    unfold clamp
    exact Int.toNat_of_nonneg
      (Int.floor_nonneg.mpr (mul_nonneg (by norm_num) (hmem c).1))
  refine ⟨part1, ?_, ?_, ?_, ?_⟩
  · intro c hc
    unfold clamp
    rw [show min (max c 0) 1 = 0 from by
      rw [max_eq_right hc]; exact min_eq_left zero_le_one]
    norm_num
  · intro c hc
    unfold clamp
    rw [show min (max c 0) 1 = 1 from by
      rw [max_eq_left (le_trans zero_le_one hc)]; exact min_eq_right hc]
    rw [mul_one, h255]
    rfl
  · intro c
    have h1 : (255 : ℝ) * min (max c 0) 1 ≤ 255 := by nlinarith [(hmem c).2, (hmem c).1]
    have h2 : ⌊(255 : ℝ) * min (max c 0) 1⌋ ≤ 255 := by
      calc ⌊(255 : ℝ) * min (max c 0) 1⌋ ≤ ⌊(255 : ℝ)⌋ := Int.floor_le_floor h1
      _ = 255 := h255
    unfold clamp
    exact Int.toNat_le.mpr (by exact_mod_cast h2)
  · intro fb
    induction fb with
    | nil => intro i hi; simp at hi
    | cons v t ih =>
      intro i hi
      have hexp : imageData (v :: t) =
          clamp v.x :: clamp v.y :: clamp v.z :: 255 :: imageData t := by
        simp [imageData]
      rw [hexp]
      cases i with
      | zero => rfl
      | succ i =>
        rw [show 4 * (i + 1) + 3 = (4 * i + 3) + 4 from by ring]
        have ht : i < t.length := by
          simp only [List.length_cons] at hi
          omega
        exact ih i ht

/-- Witness for the amended C8 at concrete components and a concrete
one-cell framebuffer. -/
theorem C8_quantize_witness :
    ((clamp (3 / 2) : ℤ) = ⌊255 * min (max ((3 : ℝ) / 2) 0) 1⌋) ∧
    clamp (-1) = 0 ∧
    clamp 2 = 255 ∧
    clamp (1 / 2) ≤ 255 ∧
    (imageData [⟨0, 0, 0⟩]).get? (4 * 0 + 3) = some 255 :=
  ⟨C8_quantize.1 _, C8_quantize.2.1 _ (by norm_num), C8_quantize.2.2.1 _ (by norm_num),
   C8_quantize.2.2.2.1 _, C8_quantize.2.2.2.2 _ 0 (by norm_num)⟩

/-- A cell not scheduled in the order keeps its framebuffer value. -/
theorem renderFold_not_mem (order : List ℕ) (fb : ℕ → Vec3) (idx : ℕ)
    (h : idx ∉ order) : order.foldl renderWrite fb idx = fb idx := by
  induction order generalizing fb with
  | nil => rfl
  | cons a t ih =>
    simp only [List.foldl_cons]
    have hna : idx ∉ t := fun hm => h (List.mem_cons_of_mem a hm)
    rw [ih _ hna]
    unfold renderWrite
    rw [if_neg (by intro he; exact h (by rw [he]; exact List.mem_cons_self a t))]

/-- A cell scheduled in the order ends up holding its own pixel color,
whatever the order and the starting framebuffer. -/
theorem renderFold_mem (order : List ℕ) (fb : ℕ → Vec3) (idx : ℕ)
    (h : idx ∈ order) : order.foldl renderWrite fb idx = renderIndex idx := by
  induction order generalizing fb with
  | nil => cases h
  | cons a t ih =>
    simp only [List.foldl_cons]
    by_cases hm : idx ∈ t
    · exact ih _ hm
    · have hia : idx = a := by
        rcases List.mem_cons.mp h with h1 | h2
        · exact h1
        · exact absurd h2 hm
      rw [renderFold_not_mem t _ idx hm]
      unfold renderWrite
      rw [if_pos hia, hia]

/-- Claim C2: every framebuffer cell at column i, row j holds the shaded
palette color of the traced hit, with intensity the ambient-floored dot of
the light direction and the surface normal, or the flat background color on
a miss. -/
theorem C2_pixel_shading :
    ∀ i j : ℕ, i < WIDTH → j < HEIGHT →
      renderFold (List.range (WIDTH * HEIGHT)) (i + j * WIDTH) =
        match sphere_trace ⟨0, 0, 3⟩
            (normalize ⟨((i : ℝ) + 0.5) - (WIDTH : ℝ) / 2,
              -((j : ℝ) + 0.5) + (HEIGHT : ℝ) / 2,
              -(HEIGHT : ℝ) / (2 * Real.tan (FOV / 2))⟩) with
        | some hit =>
          palette_fire (((SPHERE_RADIUS - magnitude hit) / NOISE_AMPLITUDE - 0.2) * 2) *
            max 0.4 (dot (normalize ((⟨10, 10, 10⟩ : Vec3) - hit)) (distance_field_normal hit))
        | none => (⟨0.2, 0.7, 0.8⟩ : Vec3) := by
  intro i j hi hj
  have hi0 : i < 640 := by simpa [WIDTH] using hi
  have hj0 : j < 480 := by simpa [HEIGHT] using hj
  have hidx : i + j * WIDTH < WIDTH * HEIGHT := by
    simp only [WIDTH, HEIGHT]
    omega
  have hmem : (i + j * WIDTH) ∈ List.range (WIDTH * HEIGHT) := List.mem_range.mpr hidx
  unfold renderFold
  rw [renderFold_mem _ _ _ hmem]
  unfold renderIndex
  have e1 : (i + j * WIDTH) % WIDTH = i := by
    simp only [WIDTH]
    omega
  rw [e1]
  have e2 : (i + j * WIDTH - i) / WIDTH = j := by
    simp only [WIDTH]
    omega
  rw [e2]
  simp only [pixelColor]
  have harg : ∀ m : ℝ, (-0.2 + (SPHERE_RADIUS - m) / NOISE_AMPLITUDE) * 2 =
      ((SPHERE_RADIUS - m) / NOISE_AMPLITUDE - 0.2) * 2 := fun m => by ring
  simp only [harg]

/-- Witness for C2 at the top-left pixel. -/
theorem C2_pixel_shading_witness :
    renderFold (List.range (WIDTH * HEIGHT)) (0 + 0 * WIDTH) =
      match sphere_trace ⟨0, 0, 3⟩
          (normalize ⟨(((0 : ℕ) : ℝ) + 0.5) - (WIDTH : ℝ) / 2,
            -(((0 : ℕ) : ℝ) + 0.5) + (HEIGHT : ℝ) / 2,
            -(HEIGHT : ℝ) / (2 * Real.tan (FOV / 2))⟩) with
      | some hit =>
        palette_fire (((SPHERE_RADIUS - magnitude hit) / NOISE_AMPLITUDE - 0.2) * 2) *
          max 0.4 (dot (normalize ((⟨10, 10, 10⟩ : Vec3) - hit)) (distance_field_normal hit))
      | none => (⟨0.2, 0.7, 0.8⟩ : Vec3) :=
  C2_pixel_shading 0 0 (by norm_num [WIDTH]) (by norm_num [HEIGHT])

/-- Claim C10: under any complete schedule of the cells, every cell holds
the pure function of its own coordinates, so any two schedules produce the
same framebuffer. -/
theorem C10_determinism :
    ∀ order1 order2 : List ℕ,
      order1.Perm (List.range (WIDTH * HEIGHT)) →
      order2.Perm (List.range (WIDTH * HEIGHT)) →
      ∀ idx : ℕ, idx < WIDTH * HEIGHT →
        renderFold order1 idx = pixelColor (idx % WIDTH) ((idx - idx % WIDTH) / WIDTH) ∧
        renderFold order1 idx = renderFold order2 idx := by
  intro o1 o2 h1 h2 idx hidx
  have m1 : idx ∈ o1 := h1.mem_iff.mpr (List.mem_range.mpr hidx)
  have m2 : idx ∈ o2 := h2.mem_iff.mpr (List.mem_range.mpr hidx)
  unfold renderFold
  rw [renderFold_mem _ _ _ m1, renderFold_mem _ _ _ m2]
  exact ⟨rfl, rfl⟩

/-- Witness for C10 with the identity schedule at the first cell. -/
theorem C10_determinism_witness :
    renderFold (List.range (WIDTH * HEIGHT)) 0 =
      pixelColor (0 % WIDTH) ((0 - 0 % WIDTH) / WIDTH) ∧
    renderFold (List.range (WIDTH * HEIGHT)) 0 =
      renderFold (List.range (WIDTH * HEIGHT)) 0 :=
  C10_determinism _ _ (List.Perm.refl _) (List.Perm.refl _) 0 (by norm_num [WIDTH, HEIGHT])

end

end TK
